import Mathlib

/-! Portfolio page script (`src/script.js`).

A shallow embedding of the browser-side controllers of the page script:
form validation, the contact-form submit handler, the counter animation,
the theme controller, the navigation menu, the scroll-to-top control and
the two reveal observers, followed by the properties proved about them.
-/

namespace Portfolio

/-! ## JavaScript strings -/

/-- A JavaScript string is a sequence of UTF-16 code units; `length` counts code units. -/
abbrev JSString := List Nat

/-- Code units of an ASCII literal. -/
def ascii (s : String) : JSString := s.toList.map Char.toNat

/-- The code units removed by `String.prototype.trim` and matched by the regex class `\s`:
ECMAScript WhiteSpace and LineTerminator. -/
def isWhiteSpace (c : Nat) : Bool :=
  c == 0x09 || c == 0x0A || c == 0x0B || c == 0x0C || c == 0x0D || c == 0x20 ||
  c == 0xA0 || c == 0x1680 || (0x2000 ≤ c && c ≤ 0x200A) || c == 0x2028 ||
  c == 0x2029 || c == 0x202F || c == 0x205F || c == 0x3000 || c == 0xFEFF

/-- `String.prototype.trim`: strip white space from both ends. -/
def trim (s : JSString) : JSString :=
  ((s.dropWhile isWhiteSpace).reverse.dropWhile isWhiteSpace).reverse

/-! ## Regular expressions (the fragment used by the script) -/

/-- An item of a bracket class. -/
inductive ClassItem where
  | space : ClassItem
  | unit (c : Nat) : ClassItem

/-- Does the item cover the code unit? -/
def ClassItem.covers : ClassItem → Nat → Bool
  | .space, c => isWhiteSpace c
  | .unit d, c => c == d

/-- Regular expressions; a pattern written between `^` and `$` matches whole inputs. -/
inductive RegExp where
  | nothing : RegExp
  | eps : RegExp
  | chr (c : Nat) : RegExp
  | notIn (items : List ClassItem) : RegExp
  | seq (r s : RegExp) : RegExp
  | alt (r s : RegExp) : RegExp
  | star (r : RegExp) : RegExp

namespace RegExp

/-- The quantifier `+`. -/
def plus (r : RegExp) : RegExp := seq r (star r)

/-- Does the expression match the empty input? -/
def nullable : RegExp → Bool
  | nothing => false
  | eps => true
  | chr _ => false
  | notIn _ => false
  | seq r s => nullable r && nullable s
  | alt r s => nullable r || nullable s
  | star _ => true

/-- Brzozowski derivative with respect to one code unit. -/
def deriv : RegExp → Nat → RegExp
  | nothing, _ => nothing
  | eps, _ => nothing
  | chr d, c => if c = d then eps else nothing
  | notIn items, c => if items.any (fun i => i.covers c) then nothing else eps
  | seq r s, c =>
      if nullable r then alt (seq (deriv r c) s) (deriv s c) else seq (deriv r c) s
  | alt r s, c => alt (deriv r c) (deriv s c)
  | star r, c => seq (deriv r c) (star r)

/-- `RegExp.prototype.test` for an anchored pattern: the whole input matches. -/
def test (r : RegExp) (s : JSString) : Bool :=
  nullable (s.foldl deriv r)

/-- The language of an expression: `Matches r w` says that the whole input `w` matches `r`. -/
inductive Matches : RegExp → List Nat → Prop where
  | eps : Matches eps []
  | chr (c : Nat) : Matches (chr c) [c]
  | notIn (items : List ClassItem) (c : Nat) (h : items.any (fun i => i.covers c) = false) :
      Matches (notIn items) [c]
  | seq {r s : RegExp} {u v : List Nat} : Matches r u → Matches s v → Matches (seq r s) (u ++ v)
  | altL {r s : RegExp} {u : List Nat} : Matches r u → Matches (alt r s) u
  | altR {r s : RegExp} {u : List Nat} : Matches s u → Matches (alt r s) u
  | starNil {r : RegExp} : Matches (star r) []
  | starCons {r : RegExp} {u v : List Nat} :
      Matches r u → Matches (star r) v → Matches (star r) (u ++ v)

end RegExp

/-- The class `[^\s@]`. -/
def notSpaceAt : RegExp := .notIn [.space, .unit 0x40]

/-- The literal `/^[^\s@]+@[^\s@]+\.[^\s@]+$/` of `validateInput`. -/
def emailRegex : RegExp :=
  .seq notSpaceAt.plus (.seq (.chr 0x40) (.seq notSpaceAt.plus (.seq (.chr 0x2E) notSpaceAt.plus)))

/-! ## Form fields -/

/-- The elements selected by `"input, textarea"`. An `input` element reports its own `type`;
a `textarea` element always reports the type `"textarea"`. -/
inductive FieldElement where
  | input (type : String) : FieldElement
  | textarea : FieldElement

/-- A form control with the properties the script reads and writes. -/
structure FormField where
  element : FieldElement
  value : JSString
  defaultValue : JSString
  borderColor : String
  boxShadow : String

/-- The DOM property `type`. -/
def FormField.type (input : FormField) : String :=
  match input.element with
  | .input t => t
  | .textarea => "textarea"

/-- The DOM property `tagName` (upper case in an HTML document). -/
def FormField.tagName (input : FormField) : String :=
  match input.element with
  | .input _ => "INPUT"
  | .textarea => "TEXTAREA"

/-- Function `validateInput` of the script. -/
def validateInput (input : FormField) : Bool :=
  let value := trim input.value
  if value.isEmpty then false
  else if input.type = "email" then emailRegex.test value
  else if input.tagName = "TEXTAREA" ∧ value.length < 10 then false
  else true

/-- Function `showInputError` of the script: red border and glow. -/
def showInputError (input : FormField) : FormField :=
  { input with borderColor := "#ff4444", boxShadow := "0 0 10px rgba(255, 68, 68, 0.2)" }

/-- Function `clearInputError` of the script. -/
def clearInputError (input : FormField) : FormField :=
  { input with borderColor := "", boxShadow := "" }

/-- Does the field carry the error styling written by `showInputError`? -/
def FormField.hasErrorStyle (input : FormField) : Prop :=
  input.borderColor = "#ff4444" ∧ input.boxShadow = "0 0 10px rgba(255, 68, 68, 0.2)"

/-- Is the error styling of the field cleared? -/
def FormField.errorCleared (input : FormField) : Prop :=
  input.borderColor = "" ∧ input.boxShadow = ""

/-- The contact form: the fields selected by `querySelectorAll("input, textarea")` in
document order, and the number of success notifications appended to the page so far. -/
structure ContactForm where
  inputs : List FormField
  toasts : Nat

/-- Function `showSuccessMessage` of the script: one more notification on the page. -/
def showSuccessMessage (form : ContactForm) : ContactForm :=
  { form with toasts := form.toasts + 1 }

/-- The method `reset` of the form: every field goes back to its default value. -/
def ContactForm.reset (form : ContactForm) : ContactForm :=
  { form with inputs := form.inputs.map fun input => { input with value := input.defaultValue } }

/-- The `inputs.forEach` loop of the submit handler, threading the local `isValid`. -/
def submitLoop : List FormField → Bool → Bool × List FormField
  | [], isValid => (isValid, [])
  | input :: rest, isValid =>
      if !validateInput input then
        let r := submitLoop rest false
        (r.1, showInputError input :: r.2)
      else
        let r := submitLoop rest isValid
        (r.1, clearInputError input :: r.2)

/-- The `submit` listener installed by `initializeFormValidation`. -/
def submitHandler (form : ContactForm) : ContactForm :=
  let r := submitLoop form.inputs true
  let styled : ContactForm := { form with inputs := r.2 }
  if r.1 then (showSuccessMessage styled).reset else styled

/-! ## Counter animation -/

/-- What the properties of the counter assume of number arithmetic. Every arithmetic
operation of the script yields its exact result passed through a rounding `fl`; the rounding
is monotone, leaves representable numbers alone, and is within relative error `2 ^ (-53)`,
as binary64 rounding to nearest is while no result overflows or underflows. Exact arithmetic
is the instance where `fl` is the identity. -/
structure Rounding (fl : ℚ → ℚ) : Prop where
  mono : ∀ x y, x ≤ y → fl x ≤ fl y
  idem : ∀ x, fl (fl x) = fl x
  near : ∀ x, |fl x - x| ≤ |x| / 2 ^ 53

/-- The decimal numeral of an integer. JavaScript's number-to-string conversion agrees with it
on the integers of magnitude at most `2 ^ 53`; beyond that it prints the shortest digits that
read back as the same number, so the conversion itself is a parameter of the animation and
this function only instantiates it on small targets. -/
def numberText (n : ℤ) : String := toString n

/-- The closure of one `animateValue` call: the constants `end` and `increment`, the variable
`current`, the text of the element, and whether the interval `counter` is still set. -/
structure Animation where
  endValue : ℤ
  increment : ℚ
  current : ℚ
  textContent : String
  active : Bool

/-- Function `animateValue` of the script, up to the `setInterval` call. -/
def animateValue (fl : ℚ → ℚ) (textContent : String) (start endValue duration : ℤ) : Animation :=
  let range := fl ((endValue : ℚ) - (start : ℚ))
  let increment := fl (range / fl ((duration : ℚ) / 16))
  { endValue := endValue, increment := increment, current := (start : ℚ),
    textContent := textContent, active := true }

/-- One firing of the interval callback (every 16 ms while the interval is set). The numbers
written into the element, `end` and `Math.floor(current)`, are integer-valued; `toText` is the
number-to-string conversion applied to them by `+ "+"`. -/
def Animation.tick (fl : ℚ → ℚ) (toText : ℤ → String) (a : Animation) : Animation :=
  if a.active then
    let current := fl (a.current + a.increment)
    if current ≥ (a.endValue : ℚ) then
      { a with current := current, textContent := toText a.endValue ++ "+", active := false }
    else
      { a with current := current, textContent := toText ⌊current⌋ ++ "+" }
  else a

/-- The animation after `n` ticks. -/
def Animation.after (fl : ℚ → ℚ) (toText : ℤ → String) (a : Animation) : Nat → Animation
  | 0 => a
  | n + 1 => (a.after fl toText n).tick fl toText

/-! ## Class lists -/

/-- A `DOMTokenList`, such as the `classList` of an element. -/
structure ClassList where
  tokens : List String

namespace ClassList

/-- Method `contains`. -/
def contains (l : ClassList) (t : String) : Bool := l.tokens.contains t

/-- Method `add`. -/
def add (l : ClassList) (t : String) : ClassList :=
  if l.contains t then l else ⟨l.tokens ++ [t]⟩

/-- Method `remove`. -/
def remove (l : ClassList) (t : String) : ClassList :=
  ⟨l.tokens.filter fun u => u != t⟩

/-- Method `toggle`: the new list, and whether the token is present afterwards. -/
def toggle (l : ClassList) (t : String) : ClassList × Bool :=
  if l.contains t then (l.remove t, false) else (⟨l.tokens ++ [t]⟩, true)

end ClassList

/-! ## Theme controller -/

/-- The element `#darkToggle`: the class name of its `i` child, if it has one, and whether
the click listener is installed. -/
structure DarkToggle where
  icon : Option String
  listening : Bool

/-- The part of the page the theme controller touches. -/
structure ThemePage where
  darkToggle : Option DarkToggle
  body : ClassList
  storedTheme : Option String

/-- An exception thrown by the script. -/
inductive JSError where
  | typeError : JSError
  deriving DecidableEq

/-- Function `updateThemeIcon` of the script; `document.querySelector("#darkToggle i")` finds
an element only inside an existing toggle. -/
def updateThemeIcon (isDarkMode : Bool) (page : ThemePage) : ThemePage :=
  match page.darkToggle with
  | some btn =>
      match btn.icon with
      | some _ =>
          let className := if isDarkMode then "fas fa-sun" else "fas fa-moon"
          { page with darkToggle := some { btn with icon := some className } }
      | none => page
  | none => page

/-- The expression `localStorage.getItem("theme") || "light"`. -/
def savedTheme (page : ThemePage) : String :=
  match page.storedTheme with
  | some v => if v = "" then "light" else v
  | none => "light"

/-- Function `initializeTheme` of the script; calling `addEventListener` on `null` throws. -/
def initializeTheme (page : ThemePage) : Except JSError ThemePage :=
  let page :=
    if savedTheme page = "dark" then
      updateThemeIcon true { page with body := page.body.add "dark-mode" }
    else page
  match page.darkToggle with
  | none => .error .typeError
  | some btn => .ok { page with darkToggle := some { btn with listening := true } }

/-- The click listener of the theme toggle. -/
def toggleClick (page : ThemePage) : ThemePage :=
  let body := (page.body.toggle "dark-mode").1
  let isDarkMode := body.contains "dark-mode"
  updateThemeIcon isDarkMode
    { page with body := body, storedTheme := some (if isDarkMode then "dark" else "light") }

/-- Modelled from the spec: the markup of the page is not part of the sources. A freshly
loaded page has the default styling (no `dark-mode` class on the body), a theme toggle whose
icon shows the moon glyph, and whatever value the browser stored under the key `theme`. -/
def freshPage (stored : Option String) : ThemePage :=
  { darkToggle := some { icon := some "fas fa-moon", listening := false },
    body := ⟨[]⟩, storedTheme := stored }

/-- The class name of the toggle icon, if the page has one. -/
def ThemePage.iconGlyph (page : ThemePage) : Option String :=
  page.darkToggle.bind fun btn => btn.icon

/-- The dark-mode flag of the document. -/
def ThemePage.isDark (page : ThemePage) : Bool := page.body.contains "dark-mode"

/-- The setup functions called by the page-ready handler after `initializeTheme`. -/
inductive Controller where
  | navigation | animations | formValidation | scrollToTop | intersectionObserver
  deriving DecidableEq

/-- The `DOMContentLoaded` listener: the six setup functions in order; an exception thrown by
one of them ends the handler. The second component lists the setup functions that ran after
the theme controller. -/
def pageReady (page : ThemePage) : Except JSError (ThemePage × List Controller) := do
  let page ← initializeTheme page
  let ran := [Controller.navigation]
  let ran := ran ++ [Controller.animations]
  let ran := ran ++ [Controller.formValidation]
  let ran := ran ++ [Controller.scrollToTop]
  let ran := ran ++ [Controller.intersectionObserver]
  pure (page, ran)

/-! ## Navigation controller -/

/-- The element `#hamburger`. -/
structure Hamburger where
  classList : ClassList
  ariaExpanded : Option String

/-- The elements the navigation controller works on; either may be missing. -/
structure NavDom where
  navMenu : Option ClassList
  hamburger : Option Hamburger

/-- The click listener of a navigation link; `targetFound` says whether
`document.querySelector(targetId)` found the section. -/
def navLinkClick (targetFound : Bool) (dom : NavDom) : NavDom :=
  if targetFound then
    match dom.navMenu with
    | some menu =>
        { navMenu := some (menu.remove "open"),
          hamburger := dom.hamburger.map fun h => { h with classList := h.classList.remove "active" } }
    | none => dom
  else dom

/-- The click listener of the hamburger. -/
def hamburgerClick (dom : NavDom) : NavDom :=
  match dom.hamburger, dom.navMenu with
  | some h, some menu =>
      let r := menu.toggle "open"
      { navMenu := some r.1,
        hamburger := some { classList := (h.classList.toggle "active").1,
                            ariaExpanded := some (if r.2 then "true" else "false") } }
  | _, _ => dom

/-- Close the menu and reset the attribute, as the document-level listeners do. -/
def closeMenu (menu : ClassList) (h : Hamburger) : NavDom :=
  { navMenu := some (menu.remove "open"),
    hamburger := some { classList := h.classList.remove "active", ariaExpanded := some "false" } }

/-- The document-level click listener; the flags say whether the menu, respectively the
hamburger, contains the event target. -/
def documentClick (inMenu inHamburger : Bool) (dom : NavDom) : NavDom :=
  match dom.hamburger, dom.navMenu with
  | some h, some menu =>
      if !menu.contains "open" then dom
      else if !inMenu && !inHamburger then closeMenu menu h
      else dom
  | _, _ => dom

/-- The document-level keydown listener. -/
def documentKeydown (key : String) (dom : NavDom) : NavDom :=
  match dom.hamburger, dom.navMenu with
  | some h, some menu =>
      if key = "Escape" ∧ menu.contains "open" = true then closeMenu menu h else dom
  | _, _ => dom

/-- The window resize listener. -/
def windowResize (innerWidth : ℚ) (dom : NavDom) : NavDom :=
  match dom.hamburger, dom.navMenu with
  | some h, some menu =>
      if innerWidth > 768 ∧ menu.contains "open" = true then closeMenu menu h else dom
  | _, _ => dom

/-- The user events the navigation controller listens to. A click is named by its target:
a navigation link (inside or outside the menu, with or without a section to scroll to), the
hamburger, another part of the menu, or the rest of the document. -/
inductive NavEvent where
  | linkClick (targetFound inMenu : Bool) : NavEvent
  | hamburgerClick : NavEvent
  | menuClick : NavEvent
  | outsideClick : NavEvent
  | keydown (key : String) : NavEvent
  | resize (innerWidth : ℚ) : NavEvent

/-- Dispatch of one event: the listener on the target runs first, then the click bubbles to
the document listener. The three document-level listeners exist only if the hamburger does. -/
def NavEvent.dispatch (dom : NavDom) : NavEvent → NavDom
  | .linkClick targetFound inMenu => documentClick inMenu false (navLinkClick targetFound dom)
  | .hamburgerClick => documentClick false true (Portfolio.hamburgerClick dom)
  | .menuClick => documentClick true false dom
  | .outsideClick => documentClick false false dom
  | .keydown key => documentKeydown key dom
  | .resize innerWidth => windowResize innerWidth dom

/-- The page after a sequence of events. -/
def runEvents (dom : NavDom) (events : List NavEvent) : NavDom :=
  events.foldl NavEvent.dispatch dom

/-- The menu carries the class `open`. -/
def NavDom.menuOpen (dom : NavDom) : Bool :=
  match dom.navMenu with
  | some menu => menu.contains "open"
  | none => false

/-- The attribute `aria-expanded` of the hamburger. -/
def NavDom.ariaExpanded (dom : NavDom) : Option String :=
  dom.hamburger.bind fun h => h.ariaExpanded

/-- The closed menu with `aria-expanded="false"`. -/
def closedNav : NavDom :=
  { navMenu := some ⟨["nav-menu"]⟩,
    hamburger := some { classList := ⟨["hamburger"]⟩, ariaExpanded := some "false" } }

/-- The attribute mirrors the class: `aria-expanded` is `"true"` exactly when the menu carries
the class `open`. -/
def NavDom.Mirrored (dom : NavDom) : Prop :=
  dom.ariaExpanded = some "true" ↔ dom.menuOpen = true

/-! ## Scroll-to-top control -/

/-- The scroll listener installed by `initializeScrollToTop`, acting on the class list of the
button; `scrollY` is `window.scrollY`. -/
def scrollHandler (scrollY : ℚ) (scrollTopBtn : ClassList) : ClassList :=
  if scrollY > 300 then scrollTopBtn.add "show" else scrollTopBtn.remove "show"

/-! ## Reveal observers -/

/-- An `IntersectionObserverEntry`; elements are named by numbers. -/
structure Entry where
  target : Nat
  isIntersecting : Bool

/-- What a reveal pass does to an element: the fade-in animation of pass A, the initial
hidden style of pass B, and the slide-up scheduled by pass B after `delay` milliseconds. -/
inductive Effect where
  | fadeIn (target : Nat) : Effect
  | hide (target : Nat) : Effect
  | slideUp (target delay : Nat) : Effect

/-- The element revealed by the effect, if it is a reveal. -/
def Effect.revealed : Effect → Option Nat
  | .fadeIn t => some t
  | .hide _ => none
  | .slideUp t _ => some t

/-- An `IntersectionObserver` of the script with the effects its code has applied so far. -/
structure Observer where
  observed : List Nat
  effects : List Effect

namespace Observer

/-- Method `observe`: register the target unless it is registered already. -/
def observe (o : Observer) (el : Nat) : Observer :=
  if el ∈ o.observed then o else { o with observed := o.observed ++ [el] }

/-- Method `unobserve`. -/
def unobserve (o : Observer) (el : Nat) : Observer :=
  { o with observed := o.observed.filter fun x => x != el }

/-- How often the element has been revealed. -/
def reveals (o : Observer) (el : Nat) : Nat :=
  (o.effects.filter fun e => e.revealed == some el).length

end Observer

/-- The observer callback of `initializeAnimations`. -/
def fadeCallback (o : Observer) (entries : List Entry) : Observer :=
  entries.foldl (fun o entry =>
    if entry.isIntersecting then
      ({ o with effects := o.effects ++ [Effect.fadeIn entry.target] }).unobserve entry.target
    else o) o

/-- Function `initializeAnimations`; `els` is the result of the `querySelectorAll` call. -/
def initializeAnimations (els : List Nat) : Observer :=
  els.foldl (fun o el => o.observe el) { observed := [], effects := [] }

/-- The `forEach` loop of the callback of `initializeIntersectionObserver`, from position
`index` of the batch on. -/
def slideLoop (o : Observer) : List Entry → Nat → Observer
  | [], _ => o
  | entry :: rest, index =>
      if entry.isIntersecting then
        slideLoop
          (({ o with effects := o.effects ++ [Effect.slideUp entry.target (index * 100)] }).unobserve
            entry.target) rest (index + 1)
      else slideLoop o rest (index + 1)

/-- The observer callback of `initializeIntersectionObserver`. -/
def slideCallback (o : Observer) (entries : List Entry) : Observer :=
  slideLoop o entries 0

/-- Function `initializeIntersectionObserver`; `elements` is the `querySelectorAll` result. -/
def initializeIntersectionObserver (elements : List Nat) : Observer :=
  elements.foldl (fun o element =>
    ({ o with effects := o.effects ++ [Effect.hide element] }).observe element)
    { observed := [], effects := [] }

/-- A notification the browser can send to an observer: the entries report targets the
observer is observing, each target at most once. -/
def Delivers (o : Observer) (entries : List Entry) : Prop :=
  (entries.map Entry.target).Nodup ∧ ∀ entry ∈ entries, entry.target ∈ o.observed

instance (o : Observer) (entries : List Entry) : Decidable (Delivers o entries) := by
  unfold Delivers
  exact inferInstance

/-- The states an observer can reach from `init` through notifications handled by
`callback`. -/
inductive Reachable (callback : Observer → List Entry → Observer) (init : Observer) :
    Observer → Prop where
  | start : Reachable callback init init
  | notify (o : Observer) (entries : List Entry) :
      Reachable callback init o → Delivers o entries → Reachable callback init (callback o entries)

/-- The one-shot contract of a reveal pass with the observer callback `callback`, the observer
`init` that setup leaves behind, and the matching elements `els`. Setup has registered every
matching element exactly once. In every reachable state no element has been revealed more than
once, a revealed element is not observed, and only matching elements are observed. Every
notification unobserves each target it reports intersecting, having revealed it exactly once,
and observes nothing that was not observed before. -/
def OneShot (callback : Observer → List Entry → Observer) (init : Observer)
    (els : List Nat) : Prop :=
  (init.observed.Nodup ∧ ∀ el, el ∈ init.observed ↔ el ∈ els) ∧
  ∀ o, Reachable callback init o →
    (∀ el, o.reveals el ≤ 1 ∧ (0 < o.reveals el → el ∉ o.observed) ∧
      (el ∈ o.observed → el ∈ els)) ∧
    ∀ entries, Delivers o entries →
      (∀ entry ∈ entries, entry.isIntersecting = true →
        entry.target ∉ (callback o entries).observed ∧
        (callback o entries).reveals entry.target = 1) ∧
      (∀ el, el ∈ (callback o entries).observed → el ∈ o.observed)

/-! # Properties -/

/-! ## Regular expressions -/

namespace RegExp

theorem matches_nil_iff_nullable (r : RegExp) : Matches r [] ↔ nullable r = true := by
  induction r with
  | nothing => exact ⟨fun h => (nomatch h), fun h => by simp [nullable] at h⟩
  | eps => exact ⟨fun _ => rfl, fun _ => Matches.eps⟩
  | chr c => exact ⟨fun h => (nomatch h), fun h => by simp [nullable] at h⟩
  | notIn items => exact ⟨fun h => (nomatch h), fun h => by simp [nullable] at h⟩
  | seq r s ihr ihs =>
    constructor
    · intro h
      generalize hnil : ([] : List Nat) = w at h
      cases h with
      | seq h1 h2 =>
        rename_i u v
        have hu : u = [] := (List.append_eq_nil.mp hnil.symm).1
        have hv : v = [] := (List.append_eq_nil.mp hnil.symm).2
        subst hu hv
        simp [nullable, ihr.mp h1, ihs.mp h2]
    · intro h
      simp only [nullable, Bool.and_eq_true] at h
      exact Matches.seq (ihr.mpr h.1) (ihs.mpr h.2)
  | alt r s ihr ihs =>
    constructor
    · intro h
      cases h with
      | altL h1 => simp [nullable, ihr.mp h1]
      | altR h2 => simp [nullable, ihs.mp h2]
    · intro h
      simp only [nullable, Bool.or_eq_true] at h
      rcases h with h | h
      · exact Matches.altL (ihr.mpr h)
      · exact Matches.altR (ihs.mpr h)
  | star r _ => exact ⟨fun _ => rfl, fun _ => Matches.starNil⟩

theorem matches_star_cons {r : RegExp} {c : Nat} {w : List Nat} (h : Matches (star r) (c :: w)) :
    ∃ u v, w = u ++ v ∧ Matches r (c :: u) ∧ Matches (star r) v := by
  generalize hr : star r = q at h
  generalize hw : c :: w = x at h
  induction h generalizing w with
  | eps => cases hw
  | chr => cases hr
  | notIn => cases hr
  | seq => cases hr
  | altL => cases hr
  | altR => cases hr
  | starNil => cases hw
  | @starCons r2 u v h1 h2 _ ih2 =>
    cases hr
    cases u with
    | nil => exact ih2 rfl (by simpa using hw)
    | cons d u2 =>
      simp only [List.cons_append, List.cons.injEq] at hw
      obtain ⟨rfl, rfl⟩ := hw
      exact ⟨u2, v, rfl, h1, h2⟩

theorem matches_deriv (r : RegExp) (c : Nat) (w : List Nat) :
    Matches (deriv r c) w ↔ Matches r (c :: w) := by
  induction r generalizing w with
  | nothing => exact ⟨fun h => (nomatch h), fun h => (nomatch h)⟩
  | eps => exact ⟨fun h => (nomatch h), fun h => (nomatch h)⟩
  | chr d =>
    simp only [deriv]
    constructor
    · intro h
      split at h
      · rename_i hcd
        cases h
        rw [hcd]
        exact Matches.chr d
      · exact nomatch h
    · intro h
      cases h
      simp only [if_true]
      exact Matches.eps
  | notIn items =>
    simp only [deriv]
    constructor
    · intro h
      split at h
      · exact nomatch h
      · rename_i hc
        cases h
        exact Matches.notIn items c (by simpa using hc)
    · intro h
      cases h with
      | notIn _ _ hc =>
        simp only [hc]
        exact Matches.eps
  | seq r s ihr ihs =>
    have hfwd : ∀ w, Matches (seq (deriv r c) s) w → Matches (seq r s) (c :: w) := by
      intro w h
      cases h with
      | seq h1 h2 =>
        have := Matches.seq ((ihr _).mp h1) h2
        simpa using this
    have hbwd : ∀ u v, Matches r (c :: u) → Matches s v →
        Matches (seq (deriv r c) s) (u ++ v) :=
      fun u v h1 h2 => Matches.seq ((ihr _).mpr h1) h2
    constructor
    · intro h
      simp only [deriv] at h
      split at h
      · rename_i hn
        cases h with
        | altL h1 => exact hfwd _ h1
        | altR h2 =>
          have := Matches.seq ((matches_nil_iff_nullable r).mpr hn) ((ihs _).mp h2)
          simpa using this
      · exact hfwd _ h
    · intro h
      generalize hx : c :: w = x at h
      cases h with
      | seq h1 h2 =>
        rename_i u v
        simp only [deriv]
        cases u with
        | nil =>
          simp only [List.nil_append] at hx
          subst hx
          have hn := (matches_nil_iff_nullable r).mp h1
          simp only [hn, if_true]
          exact Matches.altR ((ihs _).mpr h2)
        | cons d u2 =>
          simp only [List.cons_append, List.cons.injEq] at hx
          obtain ⟨rfl, rfl⟩ := hx
          split
          · exact Matches.altL (hbwd _ _ h1 h2)
          · exact hbwd _ _ h1 h2
  | alt r s ihr ihs =>
    simp only [deriv]
    constructor
    · intro h
      cases h with
      | altL h1 => exact Matches.altL ((ihr _).mp h1)
      | altR h2 => exact Matches.altR ((ihs _).mp h2)
    · intro h
      cases h with
      | altL h1 => exact Matches.altL ((ihr _).mpr h1)
      | altR h2 => exact Matches.altR ((ihs _).mpr h2)
  | star r ih =>
    simp only [deriv]
    constructor
    · intro h
      cases h with
      | seq h1 h2 =>
        have := Matches.starCons ((ih _).mp h1) h2
        simpa using this
    · intro h
      obtain ⟨u, v, rfl, h1, h2⟩ := matches_star_cons h
      exact Matches.seq ((ih _).mpr h1) h2

/-- The derivative matcher decides the language of the expression. -/
theorem test_iff_matches (r : RegExp) (w : List Nat) : test r w = true ↔ Matches r w := by
  unfold test
  induction w generalizing r with
  | nil => exact (matches_nil_iff_nullable r).symm
  | cons c w ih =>
    rw [List.foldl_cons, ih]
    exact matches_deriv r c w

end RegExp

theorem RegExp.matches_seq_iff (r s : RegExp) (w : List Nat) :
    RegExp.Matches (.seq r s) w ↔
      ∃ u v, w = u ++ v ∧ RegExp.Matches r u ∧ RegExp.Matches s v := by
  constructor
  · intro h
    cases h with
    | seq h1 h2 => exact ⟨_, _, rfl, h1, h2⟩
  · rintro ⟨u, v, rfl, h1, h2⟩
    exact RegExp.Matches.seq h1 h2

theorem RegExp.matches_chr_iff (c : Nat) (w : List Nat) :
    RegExp.Matches (.chr c) w ↔ w = [c] := by
  constructor
  · intro h
    cases h
    rfl
  · rintro rfl
    exact RegExp.Matches.chr c

theorem matches_notSpaceAt_iff (w : List Nat) :
    RegExp.Matches notSpaceAt w ↔ ∃ c, w = [c] ∧ isWhiteSpace c = false ∧ c ≠ 0x40 := by
  unfold notSpaceAt
  constructor
  · intro h
    cases h with
    | notIn _ c hc =>
      refine ⟨c, rfl, ?_⟩
      simpa [ClassItem.covers] using hc
  · rintro ⟨c, rfl, h1, h2⟩
    exact RegExp.Matches.notIn _ c (by simpa [ClassItem.covers] using And.intro h1 h2)

theorem matches_star_notSpaceAt_iff (w : List Nat) :
    RegExp.Matches notSpaceAt.star w ↔ ∀ c ∈ w, isWhiteSpace c = false ∧ c ≠ 0x40 := by
  constructor
  · intro h
    generalize hq : notSpaceAt.star = q at h
    induction h with
    | eps => cases hq
    | chr => cases hq
    | notIn => cases hq
    | seq => cases hq
    | altL => cases hq
    | altR => cases hq
    | starNil => simp
    | @starCons r2 u v h1 _ _ ih2 =>
      cases hq
      obtain ⟨c, rfl, hc⟩ := (matches_notSpaceAt_iff u).mp h1
      intro x hx
      rcases List.mem_append.mp hx with hx | hx
      · rw [List.mem_singleton] at hx
        exact hx ▸ hc
      · exact ih2 rfl x hx
  · intro h
    induction w with
    | nil => exact RegExp.Matches.starNil
    | cons c w ih =>
      have h1 := (matches_notSpaceAt_iff [c]).mpr ⟨c, rfl, h c (List.mem_cons_self c w)⟩
      have h2 := ih (fun x hx => h x (List.mem_cons_of_mem c hx))
      exact RegExp.Matches.starCons h1 h2

theorem matches_plus_notSpaceAt_iff (w : List Nat) :
    RegExp.Matches notSpaceAt.plus w ↔
      w ≠ [] ∧ ∀ c ∈ w, isWhiteSpace c = false ∧ c ≠ 0x40 := by
  unfold RegExp.plus
  rw [RegExp.matches_seq_iff]
  constructor
  · rintro ⟨u, v, rfl, h1, h2⟩
    obtain ⟨c, rfl, hc⟩ := (matches_notSpaceAt_iff u).mp h1
    refine ⟨by simp, ?_⟩
    intro x hx
    rcases List.mem_append.mp hx with hx | hx
    · rw [List.mem_singleton] at hx
      exact hx ▸ hc
    · exact (matches_star_notSpaceAt_iff v).mp h2 x hx
  · rintro ⟨hne, h⟩
    cases w with
    | nil => exact absurd rfl hne
    | cons c w =>
      exact ⟨[c], w, rfl, (matches_notSpaceAt_iff [c]).mpr ⟨c, rfl, h c (List.mem_cons_self c w)⟩,
        (matches_star_notSpaceAt_iff w).mpr (fun x hx => h x (List.mem_cons_of_mem c hx))⟩

/-- What `emailRegex.test` accepts: a non-empty local part, `@`, a non-empty part, `.`, and a
non-empty last part, none of the three parts containing white space or `@`. -/
theorem emailRegex_test_iff (w : JSString) :
    emailRegex.test w = true ↔
      ∃ l d t : JSString, w = l ++ 0x40 :: (d ++ 0x2E :: t) ∧ l ≠ [] ∧ d ≠ [] ∧ t ≠ [] ∧
        ∀ c, c ∈ l ∨ c ∈ d ∨ c ∈ t → isWhiteSpace c = false ∧ c ≠ 0x40 := by
  rw [RegExp.test_iff_matches]
  unfold emailRegex
  simp only [RegExp.matches_seq_iff, RegExp.matches_chr_iff, matches_plus_notSpaceAt_iff]
  constructor
  · rintro ⟨l, _, rfl, ⟨hl, hl2⟩, _, _, rfl, rfl, d, _, rfl, ⟨hd, hd2⟩, _, t, rfl, rfl, ht, ht2⟩
    refine ⟨l, d, t, by simp, hl, hd, ht, ?_⟩
    rintro c (hc | hc | hc)
    · exact hl2 c hc
    · exact hd2 c hc
    · exact ht2 c hc
  · rintro ⟨l, d, t, rfl, hl, hd, ht, h⟩
    exact ⟨l, _, rfl, ⟨hl, fun c hc => h c (Or.inl hc)⟩, [0x40], _, rfl, rfl, d, _, rfl,
      ⟨hd, fun c hc => h c (Or.inr (Or.inl hc))⟩, [0x2E], t, rfl, rfl, ht,
      fun c hc => h c (Or.inr (Or.inr hc))⟩

/-- The pattern on some inputs. -/
theorem emailRegex_examples :
    emailRegex.test (ascii "a@b.c") = true ∧
    emailRegex.test (ascii "first.last@mail.example.org") = true ∧
    emailRegex.test (ascii "a@b") = false ∧
    emailRegex.test (ascii "a@b.") = false ∧
    emailRegex.test (ascii "@b.c") = false ∧
    emailRegex.test (ascii "a@@b.c") = false ∧
    emailRegex.test (ascii "a b@c.d") = false := by
  decide

/-! ## Form validation -/

theorem submitLoop_fst (inputs : List FormField) (b : Bool) :
    (submitLoop inputs b).1 = (b && inputs.all validateInput) := by
  induction inputs generalizing b with
  | nil => simp [submitLoop]
  | cons input rest ih =>
    cases h : validateInput input <;> simp [submitLoop, h, ih]

theorem submitLoop_snd (inputs : List FormField) (b : Bool) :
    (submitLoop inputs b).2 =
      inputs.map fun input => if validateInput input then clearInputError input
        else showInputError input := by
  induction inputs generalizing b with
  | nil => simp [submitLoop]
  | cons input rest ih =>
    cases h : validateInput input <;> simp [submitLoop, h, ih]

/-- C1: `validateInput` accepts a field exactly when its trimmed value is non-empty, matches
the e-mail pattern if the field type is `email`, and has at least 10 code units if the field
is a `textarea`; the e-mail field holding `a@b` is rejected and the textarea holding
`hello world this is long enough` is accepted. -/
theorem validateInput_spec :
    (∀ input : FormField, validateInput input = true ↔
      (trim input.value ≠ [] ∧
       (input.type = "email" → emailRegex.test (trim input.value) = true) ∧
       (input.tagName = "TEXTAREA" → 10 ≤ (trim input.value).length))) ∧
    (∀ d b s, validateInput ⟨.input "email", ascii "a@b", d, b, s⟩ = false) ∧
    (∀ d b s, validateInput
      ⟨.textarea, ascii "hello world this is long enough", d, b, s⟩ = true) := by
  refine ⟨?_, ?_, ?_⟩
  · intro input
    obtain ⟨element, value, d, b, s⟩ := input
    have hne : ("textarea" : String) ≠ "email" := by decide
    have hne2 : ("INPUT" : String) ≠ "TEXTAREA" := by decide
    cases hv : trim value with
    | nil => simp [validateInput, hv]
    | cons c cs =>
      cases element with
      | input t =>
        by_cases ht : t = "email"
        · simp [validateInput, hv, FormField.type, FormField.tagName, ht, hne2]
        · simp [validateInput, hv, FormField.type, FormField.tagName, ht, hne2]
      | textarea =>
        simp [validateInput, hv, FormField.type, FormField.tagName, hne]
  · intro d b s; rfl
  · intro d b s; rfl

/-- The fields after the styling loop of the submit handler. -/
theorem submitHandler_eq (form : ContactForm) :
    submitHandler form =
      if form.inputs.all validateInput then
        { inputs := (form.inputs.map fun input => if validateInput input then clearInputError input
            else showInputError input).map fun input => { input with value := input.defaultValue },
          toasts := form.toasts + 1 }
      else
        { inputs := form.inputs.map fun input => if validateInput input then clearInputError input
            else showInputError input,
          toasts := form.toasts } := by
  simp only [submitHandler, submitLoop_fst, submitLoop_snd, Bool.true_and]
  split <;> rfl

/-- C2: the submit handler shows the success notification and resets the form exactly when
every field passes `validateInput`; otherwise it changes no field value; and in both cases
exactly the fields failing `validateInput` carry the error styling afterwards, the passing
ones having it cleared. -/
theorem submitHandler_spec (form : ContactForm) :
    (((submitHandler form).toasts = form.toasts + 1 ∧
        (submitHandler form).inputs.map (fun input => input.value) =
          form.inputs.map (fun input => input.defaultValue)) ↔
      ∀ input ∈ form.inputs, validateInput input = true) ∧
    ((¬ ∀ input ∈ form.inputs, validateInput input = true) →
      (submitHandler form).toasts = form.toasts ∧
      (submitHandler form).inputs.map (fun input => input.value) =
        form.inputs.map (fun input => input.value)) ∧
    List.Forall₂ (fun pre post =>
        post.element = pre.element ∧ post.defaultValue = pre.defaultValue ∧
        (post.hasErrorStyle ↔ validateInput pre = false) ∧
        (validateInput pre = true → post.errorCleared))
      form.inputs (submitHandler form).inputs := by
  have hstyle : ∀ pre : FormField,
      ((if validateInput pre then clearInputError pre else showInputError pre).hasErrorStyle ↔
        validateInput pre = false) ∧
      (validateInput pre = true →
        (if validateInput pre then clearInputError pre else showInputError pre).errorCleared) := by
    intro pre
    have hne : ("" : String) ≠ "#ff4444" := by decide
    cases h : validateInput pre <;>
      simp [FormField.hasErrorStyle, FormField.errorCleared, clearInputError, showInputError, hne]
  rw [submitHandler_eq]
  by_cases hall : form.inputs.all validateInput = true
  · have hall2 : ∀ input ∈ form.inputs, validateInput input = true := by
      simpa [List.all_eq_true] using hall
    rw [if_pos hall]
    refine ⟨?_, ?_, ?_⟩
    · refine ⟨fun _ => hall2, fun _ => ⟨rfl, ?_⟩⟩
      simp only [List.map_map]
      apply List.map_congr_left
      intro input _
      cases h : validateInput input <;> simp [h, clearInputError, showInputError]
    · intro h; exact absurd hall2 h
    · rw [List.map_map, List.forall₂_map_right_iff]
      apply List.forall₂_same.mpr
      intro pre _
      have := hstyle pre
      cases h : validateInput pre <;>
        simp_all [FormField.hasErrorStyle, FormField.errorCleared, clearInputError, showInputError]
  · have hall2 : ¬ ∀ input ∈ form.inputs, validateInput input = true := by
      simpa [List.all_eq_true] using hall
    rw [if_neg hall]
    refine ⟨?_, ?_, ?_⟩
    · simp only [hall2, iff_false, not_and]
      intro h; omega
    · intro _
      refine ⟨rfl, ?_⟩
      simp only [List.map_map]
      apply List.map_congr_left
      intro input _
      cases h : validateInput input <;> simp [h, clearInputError, showInputError]
    · rw [List.forall₂_map_right_iff]
      apply List.forall₂_same.mpr
      intro pre _
      have := hstyle pre
      cases h : validateInput pre <;>
        simp_all [FormField.hasErrorStyle, FormField.errorCleared, clearInputError, showInputError]

/-! ## Class lists -/

theorem ClassList.contains_add (l : ClassList) (t : String) : (l.add t).contains t = true := by
  unfold ClassList.add
  split
  · assumption
  · simp [ClassList.contains]

theorem ClassList.contains_remove (l : ClassList) (t : String) :
    (l.remove t).contains t = false := by
  simp [ClassList.contains, ClassList.remove, List.mem_filter]

theorem ClassList.contains_toggle (l : ClassList) (t : String) :
    (l.toggle t).1.contains t = !l.contains t ∧ (l.toggle t).2 = !l.contains t := by
  unfold ClassList.toggle
  cases h : l.contains t
  · simp [ClassList.contains]
  · simp [ClassList.contains_remove]

/-! ## Scroll-to-top control -/

/-- C9: after the scroll handler has run the button carries the class `show` exactly when the
scroll offset exceeds 300, whatever classes it carried before; so it is hidden at the offsets
0, 299 and 300 and shown at 301. -/
theorem scrollHandler_spec :
    (∀ (scrollY : ℚ) (btn : ClassList),
      (scrollHandler scrollY btn).contains "show" = true ↔ scrollY > 300) ∧
    (∀ btn : ClassList, (scrollHandler 0 btn).contains "show" = false) ∧
    (∀ btn : ClassList, (scrollHandler 299 btn).contains "show" = false) ∧
    (∀ btn : ClassList, (scrollHandler 300 btn).contains "show" = false) ∧
    (∀ btn : ClassList, (scrollHandler 301 btn).contains "show" = true) := by
  have key : ∀ (scrollY : ℚ) (btn : ClassList),
      (scrollHandler scrollY btn).contains "show" = true ↔ scrollY > 300 := by
    intro scrollY btn
    unfold scrollHandler
    split
    · simp [ClassList.contains_add, *]
    · simp [ClassList.contains_remove, *]
  refine ⟨key, ?_, ?_, ?_, ?_⟩
  · intro btn
    have := key 0 btn
    cases h : (scrollHandler 0 btn).contains "show"
    · rfl
    · rw [h] at this; norm_num at this
  · intro btn
    have := key 299 btn
    cases h : (scrollHandler 299 btn).contains "show"
    · rfl
    · rw [h] at this; norm_num at this
  · intro btn
    have := key 300 btn
    cases h : (scrollHandler 300 btn).contains "show"
    · rfl
    · rw [h] at this; norm_num at this
  · intro btn
    exact (key 301 btn).mpr (by norm_num)

/-! ## Theme controller -/

/-- C8: on a freshly loaded page, theme startup completes and leaves the document dark exactly
when the stored value is `dark`, with the sun glyph on the toggle in that case and the moon
glyph otherwise; the stored value `light` and an absent value give the same page state. -/
theorem initializeTheme_spec :
    (∀ stored : Option String, ∃ page, initializeTheme (freshPage stored) = .ok page ∧
      page.storedTheme = stored ∧
      (page.isDark = true ↔ stored = some "dark") ∧
      page.iconGlyph = some (if stored = some "dark" then "fas fa-sun" else "fas fa-moon")) ∧
    (∃ page, initializeTheme (freshPage (some "dark")) = .ok page ∧
      page.isDark = true ∧ page.iconGlyph = some "fas fa-sun") ∧
    (∃ page, initializeTheme (freshPage (some "light")) = .ok page ∧
      page.isDark = false ∧ page.iconGlyph = some "fas fa-moon") ∧
    (∃ page, initializeTheme (freshPage none) = .ok page ∧
      page.isDark = false ∧ page.iconGlyph = some "fas fa-moon") := by
  refine ⟨?_, ⟨_, rfl, by decide, by decide⟩, ⟨_, rfl, by decide, by decide⟩,
    ⟨_, rfl, by decide, by decide⟩⟩
  intro stored
  have hne : ("light" : String) ≠ "dark" := by decide
  rcases stored with _ | v
  · exact ⟨_, rfl, rfl, by decide, by decide⟩
  · by_cases hv : v = "dark"
    · subst hv
      exact ⟨_, rfl, rfl, by decide, by decide⟩
    · have hs : savedTheme (freshPage (some v)) ≠ "dark" := by
        simp only [savedTheme, freshPage]
        split
        · exact hne
        · exact hv
      refine ⟨{ darkToggle := some { icon := some "fas fa-moon", listening := true },
                body := ⟨[]⟩, storedTheme := some v }, ?_, ?_, ?_, ?_⟩
      · simp only [initializeTheme, if_neg hs]
        rfl
      · rfl
      · simp [ThemePage.isDark, ClassList.contains, hv]
      · simp [ThemePage.iconGlyph, hv]

/-- C7 as stated fails on a first visit: with no stored theme, startup leaves the storage
empty, and after two activations of the toggle the storage holds `light`. -/
theorem toggleClick_twice_absent :
    ∃ page, initializeTheme (freshPage none) = .ok page ∧ page.storedTheme = none ∧
      (toggleClick (toggleClick page)).storedTheme = some "light" ∧
      (toggleClick (toggleClick page)).storedTheme ≠ page.storedTheme :=
  ⟨_, rfl, rfl, by decide, by decide⟩

/-- C7, amended: after theme startup on a freshly loaded page, two activations of the theme
toggle in a row restore the icon glyph and the dark-mode flag; for a stored value of `light`,
`dark` or none they restore the theme as the script reads it (`getItem("theme") || "light"`);
a stored `light` or `dark` entry is restored literally, and an absent entry has become
`light`. -/
theorem toggleClick_twice (stored : Option String) :
    ∃ page, initializeTheme (freshPage stored) = .ok page ∧
      (toggleClick (toggleClick page)).iconGlyph = page.iconGlyph ∧
      (toggleClick (toggleClick page)).isDark = page.isDark ∧
      ((stored = none ∨ stored = some "light" ∨ stored = some "dark") →
        savedTheme (toggleClick (toggleClick page)) = savedTheme page) ∧
      ((stored = some "light" ∨ stored = some "dark") →
        (toggleClick (toggleClick page)).storedTheme = page.storedTheme) ∧
      (stored = none → (toggleClick (toggleClick page)).storedTheme = some "light") := by
  have hne : ("light" : String) ≠ "dark" := by decide
  rcases stored with _ | v
  · exact ⟨_, rfl, by decide, by decide, fun _ => by decide, fun h => by simp at h,
      fun _ => by decide⟩
  · by_cases hv : v = "dark"
    · subst hv
      exact ⟨_, rfl, by decide, by decide, fun _ => by decide, fun _ => by decide,
        fun h => by simp at h⟩
    · have hs : savedTheme (freshPage (some v)) ≠ "dark" := by
        simp only [savedTheme, freshPage]
        split
        · exact hne
        · exact hv
      refine ⟨{ darkToggle := some { icon := some "fas fa-moon", listening := true },
                body := ⟨[]⟩, storedTheme := some v }, ?_, by rfl, by rfl, ?_, ?_,
              fun h => by simp at h⟩
      · simp only [initializeTheme, if_neg hs]
        rfl
      · intro h
        have hl : v = "light" := by
          rcases h with h | h | h
          · cases h
          · exact Option.some.inj h
          · exact absurd (Option.some.inj h) hv
        subst hl
        decide
      · intro h
        have hl : v = "light" := by
          rcases h with h | h
          · exact Option.some.inj h
          · exact absurd (Option.some.inj h) hv
        subst hl
        decide

/-- C5 (how the script behaves): on a page without the element `darkToggle`, `initializeTheme`
throws a `TypeError` at its `addEventListener` call, and the page-ready handler ends with that
exception before any of the other five setup functions has run; with the toggle present the
handler runs all of them. -/
theorem initializeTheme_missing_toggle :
    (∀ (body : ClassList) (stored : Option String),
      initializeTheme { darkToggle := none, body := body, storedTheme := stored } =
        .error .typeError ∧
      pageReady { darkToggle := none, body := body, storedTheme := stored } =
        .error .typeError) ∧
    (∃ page, pageReady (freshPage none) = .ok (page,
      [.navigation, .animations, .formValidation, .scrollToTop, .intersectionObserver])) := by
  refine ⟨?_, ⟨_, rfl⟩⟩
  intro body stored
  have h : initializeTheme { darkToggle := none, body := body, storedTheme := stored } =
      .error .typeError := by
    unfold initializeTheme
    split <;> rfl
  refine ⟨h, ?_⟩
  unfold pageReady
  rw [h]
  rfl

/-! ## Navigation controller -/

theorem closeMenu_mirrored (menu : ClassList) (h : Hamburger) :
    ∃ menu2 h2, (closeMenu menu h).navMenu = some menu2 ∧ (closeMenu menu h).hamburger = some h2 ∧
      (h2.ariaExpanded = some "true" ↔ menu2.contains "open" = true) := by
  refine ⟨_, _, rfl, rfl, ?_⟩
  have hne : ("false" : String) ≠ "true" := by decide
  simp [ClassList.contains_remove, hne]

theorem dispatch_mirrored (dom : NavDom) (e : NavEvent)
    (he : ∀ inMenu, e ≠ NavEvent.linkClick true inMenu)
    (hinv : ∃ menu h, dom.navMenu = some menu ∧ dom.hamburger = some h ∧
      (h.ariaExpanded = some "true" ↔ menu.contains "open" = true)) :
    ∃ menu h, (e.dispatch dom).navMenu = some menu ∧ (e.dispatch dom).hamburger = some h ∧
      (h.ariaExpanded = some "true" ↔ menu.contains "open" = true) := by
  have hne : ("false" : String) ≠ "true" := by decide
  have hdoc : ∀ (a b : Bool) (d : NavDom),
      (∃ menu h, d.navMenu = some menu ∧ d.hamburger = some h ∧
        (h.ariaExpanded = some "true" ↔ menu.contains "open" = true)) →
      ∃ menu h, (documentClick a b d).navMenu = some menu ∧
        (documentClick a b d).hamburger = some h ∧
        (h.ariaExpanded = some "true" ↔ menu.contains "open" = true) := by
    rintro a b ⟨dm, dh⟩ ⟨menu, h, hm, hh, hiff⟩
    simp only at hm hh
    subst hm hh
    simp only [documentClick]
    split
    · exact ⟨menu, h, rfl, rfl, hiff⟩
    · split
      · exact closeMenu_mirrored menu h
      · exact ⟨menu, h, rfl, rfl, hiff⟩
  obtain ⟨menu, h, hm, hh, hiff⟩ := hinv
  obtain ⟨dm, dh⟩ := dom
  simp only at hm hh
  subst hm hh
  cases e with
  | linkClick targetFound inMenu =>
    cases targetFound with
    | true => exact absurd rfl (he inMenu)
    | false => exact hdoc _ _ _ ⟨menu, h, rfl, rfl, hiff⟩
  | hamburgerClick =>
    apply hdoc
    refine ⟨_, _, rfl, rfl, ?_⟩
    have ht := ClassList.contains_toggle menu "open"
    simp only [ht.1, ht.2]
    cases menu.contains "open" <;> simp [hne]
  | menuClick => exact hdoc _ _ _ ⟨menu, h, rfl, rfl, hiff⟩
  | outsideClick => exact hdoc _ _ _ ⟨menu, h, rfl, rfl, hiff⟩
  | keydown key =>
    simp only [NavEvent.dispatch, documentKeydown]
    split
    · exact closeMenu_mirrored menu h
    · exact ⟨menu, h, rfl, rfl, hiff⟩
  | resize innerWidth =>
    simp only [NavEvent.dispatch, windowResize]
    split
    · exact closeMenu_mirrored menu h
    · exact ⟨menu, h, rfl, rfl, hiff⟩

/-- Without a click on a navigation link whose section exists, the attribute mirrors the class
in every state reachable from the closed menu: the hamburger, document-click, Escape and resize
paths all keep `aria-expanded` in step with the class `open`. -/
theorem mirrored_without_link_close (events : List NavEvent)
    (he : ∀ e ∈ events, ∀ inMenu, e ≠ NavEvent.linkClick true inMenu) :
    (runEvents closedNav events).Mirrored := by
  have hgen : ∀ (events : List NavEvent) (dom : NavDom),
      (∀ e ∈ events, ∀ inMenu, e ≠ NavEvent.linkClick true inMenu) →
      (∃ menu h, dom.navMenu = some menu ∧ dom.hamburger = some h ∧
        (h.ariaExpanded = some "true" ↔ menu.contains "open" = true)) →
      ∃ menu h, (runEvents dom events).navMenu = some menu ∧
        (runEvents dom events).hamburger = some h ∧
        (h.ariaExpanded = some "true" ↔ menu.contains "open" = true) := by
    intro events
    induction events with
    | nil => intro dom _ h; exact h
    | cons e rest ih =>
      intro dom hev hinv
      exact ih (e.dispatch dom) (fun x hx => hev x (List.mem_cons_of_mem e hx))
        (dispatch_mirrored dom e (hev e (List.mem_cons_self e rest)) hinv)
  obtain ⟨menu, h, hm, hh, hiff⟩ := hgen events closedNav he
    ⟨_, _, rfl, rfl, by decide⟩
  simp only [NavDom.Mirrored, NavDom.ariaExpanded, NavDom.menuOpen, hm, hh, Option.bind_some]
  exact hiff

/-- C6 (how the script behaves): from the closed menu, a hamburger click followed by a click
on a navigation link whose section exists breaks the mirroring: the menu is left without the
class `open` while `aria-expanded` still reads `"true"`. Closing the open menu with Escape, by
a click outside or by a resize above 768 resets the attribute to `"false"`. -/
theorem navLinkClick_leaves_aria_expanded :
    ¬ (runEvents closedNav [.hamburgerClick, .linkClick true true]).Mirrored ∧
    (runEvents closedNav [.hamburgerClick, .linkClick true true]).menuOpen = false ∧
    (runEvents closedNav [.hamburgerClick, .linkClick true true]).ariaExpanded = some "true" ∧
    (runEvents closedNav [.hamburgerClick]).menuOpen = true ∧
    (runEvents closedNav [.hamburgerClick]).ariaExpanded = some "true" ∧
    (runEvents closedNav [.hamburgerClick, .keydown "Escape"]).menuOpen = false ∧
    (runEvents closedNav [.hamburgerClick, .keydown "Escape"]).ariaExpanded = some "false" ∧
    (runEvents closedNav [.hamburgerClick, .outsideClick]).ariaExpanded = some "false" ∧
    (runEvents closedNav [.hamburgerClick, .resize 1024]).ariaExpanded = some "false" := by
  refine ⟨by unfold NavDom.Mirrored; decide, by decide, by decide, by decide, by decide,
    by decide, by decide, by decide, ?_⟩
  have h : runEvents closedNav [.hamburgerClick, .resize 1024] =
      windowResize 1024 (runEvents closedNav [.hamburgerClick]) := rfl
  rw [h]
  have h2 : runEvents closedNav [.hamburgerClick] =
      { navMenu := some ⟨["nav-menu", "open"]⟩,
        hamburger := some { classList := ⟨["hamburger", "active"]⟩,
                            ariaExpanded := some "true" } } := by rfl
  rw [h2]
  have h3 : ((1024 : ℚ) > 768 ∧ (ClassList.mk ["nav-menu", "open"]).contains "open" = true) :=
    ⟨by norm_num, by decide⟩
  simp only [windowResize, if_pos h3]
  decide

/-! ## Counter animation -/

theorem Rounding.zero {fl : ℚ → ℚ} (h : Rounding fl) : fl 0 = 0 := by
  have h0 := h.near 0
  simp only [abs_zero, zero_div, sub_zero] at h0
  exact abs_nonpos_iff.mp h0

theorem Rounding.nonneg {fl : ℚ → ℚ} (h : Rounding fl) {x : ℚ} (hx : 0 ≤ x) : 0 ≤ fl x := by
  have := h.mono 0 x hx
  rwa [h.zero] at this

theorem Rounding.lower {fl : ℚ → ℚ} (h : Rounding fl) {x : ℚ} (hx : 0 ≤ x) :
    x * (1 - 1 / 2 ^ 53) ≤ fl x := by
  have h0 := h.near x
  rw [abs_of_nonneg hx] at h0
  have := (abs_le.mp h0).1
  linarith

theorem Rounding.upper {fl : ℚ → ℚ} (h : Rounding fl) {x : ℚ} (hx : 0 ≤ x) :
    fl x ≤ x * (1 + 1 / 2 ^ 53) := by
  have h0 := h.near x
  rw [abs_of_nonneg hx] at h0
  have := (abs_le.mp h0).2
  linarith

theorem Animation.tick_ge (fl : ℚ → ℚ) (toText : ℤ → String) (a : Animation)
    (ha : a.active = true)
    (hc : fl (a.current + a.increment) ≥ (a.endValue : ℚ)) :
    a.tick fl toText =
      { a with current := fl (a.current + a.increment),
               textContent := toText a.endValue ++ "+", active := false } := by
  simp only [Animation.tick, if_pos ha, if_pos hc]

theorem Animation.tick_lt (fl : ℚ → ℚ) (toText : ℤ → String) (a : Animation)
    (ha : a.active = true)
    (hc : ¬ fl (a.current + a.increment) ≥ (a.endValue : ℚ)) :
    a.tick fl toText =
      { a with current := fl (a.current + a.increment),
               textContent := toText ⌊fl (a.current + a.increment)⌋ ++ "+" } := by
  simp only [Animation.tick, if_pos ha, if_neg hc]

theorem Animation.tick_of_inactive (fl : ℚ → ℚ) (toText : ℤ → String) (a : Animation) (h : a.active = false) :
    a.tick fl toText = a := by
  simp [Animation.tick, h]

theorem Animation.tick_endValue (fl : ℚ → ℚ) (toText : ℤ → String) (a : Animation) :
    (a.tick fl toText).endValue = a.endValue ∧ (a.tick fl toText).increment = a.increment := by
  cases ha : a.active with
  | false => rw [Animation.tick_of_inactive fl toText a ha]; exact ⟨rfl, rfl⟩
  | true =>
    by_cases hc : fl (a.current + a.increment) ≥ (a.endValue : ℚ)
    · rw [Animation.tick_ge fl toText a ha hc]; exact ⟨rfl, rfl⟩
    · rw [Animation.tick_lt fl toText a ha hc]; exact ⟨rfl, rfl⟩

theorem Animation.tick_current (fl : ℚ → ℚ) (toText : ℤ → String) (a : Animation) (ha : a.active = true) :
    (a.tick fl toText).current = fl (a.current + a.increment) := by
  by_cases hc : fl (a.current + a.increment) ≥ (a.endValue : ℚ)
  · rw [Animation.tick_ge fl toText a ha hc]
  · rw [Animation.tick_lt fl toText a ha hc]

theorem Animation.tick_active (fl : ℚ → ℚ) (toText : ℤ → String) (a : Animation) (h : (a.tick fl toText).active = true) :
    a.active = true ∧ (a.tick fl toText).current < (a.endValue : ℚ) ∧
      (a.tick fl toText).textContent = toText ⌊(a.tick fl toText).current⌋ ++ "+" := by
  cases ha : a.active with
  | false =>
    rw [Animation.tick_of_inactive fl toText a ha, ha] at h
    exact absurd h (by decide)
  | true =>
    refine ⟨rfl, ?_⟩
    by_cases hc : fl (a.current + a.increment) ≥ (a.endValue : ℚ)
    · rw [Animation.tick_ge fl toText a ha hc] at h
      exact absurd h (by simp)
    · rw [Animation.tick_lt fl toText a ha hc]
      exact ⟨lt_of_not_ge hc, rfl⟩

theorem Animation.tick_final (fl : ℚ → ℚ) (toText : ℤ → String) (a : Animation) (ha : a.active = true)
    (h : (a.tick fl toText).active = false) :
    (a.tick fl toText).textContent = toText a.endValue ++ "+" := by
  by_cases hc : fl (a.current + a.increment) ≥ (a.endValue : ℚ)
  · rw [Animation.tick_ge fl toText a ha hc]
  · rw [Animation.tick_lt fl toText a ha hc] at h
    rw [ha] at h
    exact absurd h (by decide)

theorem Animation.after_endValue (fl : ℚ → ℚ) (toText : ℤ → String) (a : Animation) (n : Nat) :
    (a.after fl toText n).endValue = a.endValue ∧ (a.after fl toText n).increment = a.increment := by
  induction n with
  | zero => exact ⟨rfl, rfl⟩
  | succ n ih =>
    have := Animation.tick_endValue fl toText (a.after fl toText n)
    exact ⟨this.1.trans ih.1, this.2.trans ih.2⟩

theorem Animation.after_active_of_le (fl : ℚ → ℚ) (toText : ℤ → String) (a : Animation) (m n : Nat) (hmn : m ≤ n)
    (h : (a.after fl toText n).active = true) : (a.after fl toText m).active = true := by
  induction n with
  | zero =>
    have : m = 0 := by omega
    subst this
    exact h
  | succ n ih =>
    rcases Nat.lt_or_ge m (n + 1) with hlt | hge
    · exact ih (by omega) (Animation.tick_active fl toText (a.after fl toText n) h).1
    · have : m = n + 1 := by omega
      subst this
      exact h

theorem Animation.after_of_inactive (fl : ℚ → ℚ) (toText : ℤ → String) (a : Animation) (n m : Nat) (hnm : n ≤ m)
    (h : (a.after fl toText n).active = false) : a.after fl toText m = a.after fl toText n := by
  induction m with
  | zero =>
    have : n = 0 := by omega
    subst this
    rfl
  | succ m ih =>
    rcases Nat.lt_or_ge n (m + 1) with hlt | hge
    · have hm := ih (by omega)
      show (a.after fl toText m).tick fl toText = _
      rw [hm, Animation.tick_of_inactive fl toText _ h]
    · have : n = m + 1 := by omega
      subst this
      rfl

theorem Animation.after_fixed (fl : ℚ → ℚ) (toText : ℤ → String) (hfl : Rounding fl) (a : Animation)
    (h0 : fl a.current = a.current) (n : Nat) :
    fl (a.after fl toText n).current = (a.after fl toText n).current := by
  induction n with
  | zero => exact h0
  | succ n ih =>
    cases ha : (a.after fl toText n).active with
    | false =>
      show fl ((a.after fl toText n).tick fl toText).current = ((a.after fl toText n).tick fl toText).current
      rw [Animation.tick_of_inactive fl toText _ ha]
      exact ih
    | true =>
      show fl ((a.after fl toText n).tick fl toText).current = ((a.after fl toText n).tick fl toText).current
      rw [Animation.tick_current fl toText _ ha]
      exact hfl.idem _

theorem Animation.after_mono (fl : ℚ → ℚ) (toText : ℤ → String) (hfl : Rounding fl) (a : Animation)
    (h0 : fl a.current = a.current) (hinc : 0 ≤ a.increment) (k m : Nat) (hkm : k ≤ m) :
    (a.after fl toText k).current ≤ (a.after fl toText m).current := by
  induction m with
  | zero =>
    have : k = 0 := by omega
    subst this
    exact le_refl _
  | succ m ih =>
    rcases Nat.lt_or_ge k (m + 1) with hlt | hge
    · refine le_trans (ih (by omega)) ?_
      cases ha : (a.after fl toText m).active with
      | false =>
        show _ ≤ ((a.after fl toText m).tick fl toText).current
        rw [Animation.tick_of_inactive fl toText _ ha]
      | true =>
        show _ ≤ ((a.after fl toText m).tick fl toText).current
        rw [Animation.tick_current fl toText _ ha, (Animation.after_endValue fl toText a m).2]
        calc (a.after fl toText m).current = fl (a.after fl toText m).current :=
              (Animation.after_fixed fl toText hfl a h0 m).symm
          _ ≤ fl ((a.after fl toText m).current + a.increment) :=
              hfl.mono _ _ (by linarith)
    · have : k = m + 1 := by omega
      subst this
      exact le_refl _

theorem Animation.after_lower (fl : ℚ → ℚ) (toText : ℤ → String) (hfl : Rounding fl) (a : Animation)
    (h0 : 0 ≤ a.current) (hinc : 0 ≤ a.increment) (n : Nat)
    (h : (a.after fl toText n).active = true) :
    (n : ℚ) * a.increment * (1 - 1 / 2 ^ 53) ^ n ≤ (a.after fl toText n).current := by
  have hu0 : (0 : ℚ) ≤ 1 - 1 / 2 ^ 53 := by norm_num
  have hu1 : (1 : ℚ) - 1 / 2 ^ 53 ≤ 1 := by norm_num
  induction n with
  | zero => simpa using h0
  | succ n ih =>
    have hact := (Animation.tick_active fl toText (a.after fl toText n) h).1
    have hprev := ih hact
    have hcur : (a.after fl toText (n + 1)).current = fl ((a.after fl toText n).current + a.increment) := by
      show ((a.after fl toText n).tick fl toText).current = _
      rw [Animation.tick_current fl toText _ hact, (Animation.after_endValue fl toText a n).2]
    have hpow1 : (1 - 1 / 2 ^ 53 : ℚ) ^ n ≤ 1 := pow_le_one₀ hu0 hu1
    have hpow0 : (0 : ℚ) ≤ (1 - 1 / 2 ^ 53) ^ n := pow_nonneg hu0 n
    have hn0 : (0 : ℚ) ≤ (n : ℚ) * a.increment * (1 - 1 / 2 ^ 53) ^ n :=
      mul_nonneg (mul_nonneg (Nat.cast_nonneg n) hinc) hpow0
    have hsum : 0 ≤ (a.after fl toText n).current + a.increment := by linarith
    have hlow := hfl.lower hsum
    rw [hcur]
    refine le_trans ?_ hlow
    have hstep : ((n : ℚ) + 1) * a.increment * (1 - 1 / 2 ^ 53) ^ n ≤
        (a.after fl toText n).current + a.increment := by
      have : a.increment * (1 - 1 / 2 ^ 53) ^ n ≤ a.increment := by
        calc a.increment * (1 - 1 / 2 ^ 53) ^ n ≤ a.increment * 1 :=
              mul_le_mul_of_nonneg_left hpow1 hinc
          _ = a.increment := mul_one _
      nlinarith
    calc ((n + 1 : ℕ) : ℚ) * a.increment * (1 - 1 / 2 ^ 53) ^ (n + 1)
        = (((n : ℚ) + 1) * a.increment * (1 - 1 / 2 ^ 53) ^ n) * (1 - 1 / 2 ^ 53) := by
          push_cast; ring
      _ ≤ ((a.after fl toText n).current + a.increment) * (1 - 1 / 2 ^ 53) :=
          mul_le_mul_of_nonneg_right hstep hu0

theorem Rounding.id_rounding : Rounding (fun x : ℚ => x) where
  mono := fun _ _ h => h
  idem := fun _ => rfl
  near := fun x => by
    simp only [sub_self, abs_zero]
    positivity

theorem animateValue_increment_lower (fl : ℚ → ℚ) (hfl : Rounding fl) (text : String)
    (target : ℤ) (h : 0 ≤ target) :
    0 ≤ (animateValue fl text 0 target 1000).increment ∧
    (target : ℚ) * (1599 / 100000) ≤ (animateValue fl text 0 target 1000).increment := by
  have ht : (0 : ℚ) ≤ (target : ℚ) := by exact_mod_cast h
  have hx : (0 : ℚ) ≤ (target : ℚ) - ((0 : ℤ) : ℚ) := by simpa using ht
  have hr0 := hfl.nonneg hx
  have hr := hfl.lower hx
  have hd : (0 : ℚ) ≤ ((1000 : ℤ) : ℚ) / 16 := by norm_num
  have hs_up := hfl.upper hd
  have hs_lo := hfl.lower hd
  have hspos : (0 : ℚ) < fl (((1000 : ℤ) : ℚ) / 16) := by
    refine lt_of_lt_of_le ?_ hs_lo
    norm_num
  have hs_le : fl (((1000 : ℤ) : ℚ) / 16) ≤ 6251 / 100 := by
    refine le_trans hs_up ?_
    norm_num
  have hq0 : (0 : ℚ) ≤ fl ((target : ℚ) - ((0 : ℤ) : ℚ)) / fl (((1000 : ℤ) : ℚ) / 16) :=
    div_nonneg hr0 (le_of_lt hspos)
  have hq : fl ((target : ℚ) - ((0 : ℤ) : ℚ)) / (6251 / 100) ≤
      fl ((target : ℚ) - ((0 : ℤ) : ℚ)) / fl (((1000 : ℤ) : ℚ) / 16) :=
    div_le_div_of_nonneg_left hr0 hspos hs_le
  have hinc := hfl.lower hq0
  have hu0 : (0 : ℚ) ≤ 1 - 1 / 2 ^ 53 := by norm_num
  have hnum : (1599 / 100000 : ℚ) ≤ (1 - 1 / 2 ^ 53) * (100 / 6251) * (1 - 1 / 2 ^ 53) := by
    norm_num
  refine ⟨hfl.nonneg hq0, ?_⟩
  show (target : ℚ) * (1599 / 100000) ≤
    fl (fl ((target : ℚ) - ((0 : ℤ) : ℚ)) / fl (((1000 : ℤ) : ℚ) / 16))
  refine le_trans ?_ hinc
  calc (target : ℚ) * (1599 / 100000)
      ≤ (target : ℚ) * ((1 - 1 / 2 ^ 53) * (100 / 6251) * (1 - 1 / 2 ^ 53)) :=
        mul_le_mul_of_nonneg_left hnum ht
    _ = (((target : ℚ) - ((0 : ℤ) : ℚ)) * (1 - 1 / 2 ^ 53)) / (6251 / 100) * (1 - 1 / 2 ^ 53) := by
        simp only [Int.cast_zero, sub_zero]
        ring
    _ ≤ fl ((target : ℚ) - ((0 : ℤ) : ℚ)) / (6251 / 100) * (1 - 1 / 2 ^ 53) := by
        apply mul_le_mul_of_nonneg_right _ hu0
        exact div_le_div_of_nonneg_right hr (by norm_num)
    _ ≤ fl ((target : ℚ) - ((0 : ℤ) : ℚ)) / fl (((1000 : ℤ) : ℚ) / 16) * (1 - 1 / 2 ^ 53) :=
        mul_le_mul_of_nonneg_right hq hu0

theorem animateValue_stops (fl : ℚ → ℚ) (toText : ℤ → String) (hfl : Rounding fl) (text : String)
    (target : ℤ) (h : 0 ≤ target) :
    ((animateValue fl text 0 target 1000).after fl toText 63).active = false := by
  cases hact : ((animateValue fl text 0 target 1000).after fl toText 63).active with
  | false => rfl
  | true =>
    exfalso
    have ht : (0 : ℚ) ≤ (target : ℚ) := by exact_mod_cast h
    obtain ⟨hinc0, hinc⟩ := animateValue_increment_lower fl hfl text target h
    have hlt := (Animation.tick_active fl toText ((animateValue fl text 0 target 1000).after fl toText 62)
      hact).2.1
    have hend := (Animation.after_endValue fl toText (animateValue fl text 0 target 1000) 62).1
    rw [hend] at hlt
    have hlow := Animation.after_lower fl toText hfl (animateValue fl text 0 target 1000)
      (by show (0 : ℚ) ≤ ((0 : ℤ) : ℚ); simp) hinc0 63 hact
    have hpow : (999 / 1000 : ℚ) ≤ (1 - 1 / 2 ^ 53) ^ 63 := by
      have hb := one_add_mul_le_pow (show (-2 : ℚ) ≤ -(1 / 2 ^ 53) by norm_num) 63
      have : (1 : ℚ) + -(1 / 2 ^ 53) = 1 - 1 / 2 ^ 53 := by ring
      rw [this] at hb
      refine le_trans ?_ hb
      norm_num
    have hcast : ((63 : ℕ) : ℚ) = 63 := by norm_num
    rw [hcast] at hlow
    have hcur : ((animateValue fl text 0 target 1000).after fl toText 63).current < (target : ℚ) := hlt
    generalize (1 - 1 / 2 ^ 53 : ℚ) ^ 63 = p at hlow hpow
    generalize ((animateValue fl text 0 target 1000).after fl toText 63).current = cur at hlow hcur
    generalize (animateValue fl text 0 target 1000).increment = inc at hlow hinc hinc0
    have h1 : 63 * inc * (999 / 1000) ≤ 63 * inc * p :=
      mul_le_mul_of_nonneg_left hpow (mul_nonneg (by norm_num) hinc0)
    linarith

/-- C3: for a non-negative integer target, the animation started by
`animateValue(element, 0, target, 1000)` reaches, after at most 63 ticks, a tick that writes
the text of the target (as the number-to-string conversion `toText` prints it) followed by `+`
and clears the interval; every earlier tick leaves the interval set, and no later tick changes
anything, so this is the final text. -/
theorem animateValue_reaches_target (fl : ℚ → ℚ) (toText : ℤ → String) (hfl : Rounding fl)
    (text : String) (target : ℤ) (h : 0 ≤ target) :
    ∃ n, 1 ≤ n ∧ n ≤ 63 ∧
      (∀ m, m < n → ((animateValue fl text 0 target 1000).after fl toText m).active = true) ∧
      ((animateValue fl text 0 target 1000).after fl toText n).active = false ∧
      ((animateValue fl text 0 target 1000).after fl toText n).textContent =
        toText target ++ "+" ∧
      ∀ m, n ≤ m → (animateValue fl text 0 target 1000).after fl toText m =
        (animateValue fl text 0 target 1000).after fl toText n := by
  classical
  have hex : ∃ n, ((animateValue fl text 0 target 1000).after fl toText n).active = false :=
    ⟨63, animateValue_stops fl toText hfl text target h⟩
  have hmin : ∀ m, m < Nat.find hex →
      ((animateValue fl text 0 target 1000).after fl toText m).active = true := by
    intro m hm
    have := Nat.find_min hex hm
    simpa using this
  have hpos : 1 ≤ Nat.find hex := by
    rcases Nat.eq_zero_or_pos (Nat.find hex) with h0 | h0
    · have hspec := Nat.find_spec hex
      rw [h0] at hspec
      exact absurd hspec (by simp [Animation.after, animateValue])
    · exact h0
  refine ⟨Nat.find hex, hpos, Nat.find_min' hex (animateValue_stops fl toText hfl text target h),
    hmin, Nat.find_spec hex, ?_, ?_⟩
  · obtain ⟨k, hk⟩ : ∃ k, Nat.find hex = k + 1 := ⟨Nat.find hex - 1, by omega⟩
    have hspec := Nat.find_spec hex
    have hprev := hmin k (by omega)
    rw [hk] at hspec ⊢
    have := Animation.tick_final fl toText _ hprev hspec
    rw [(Animation.after_endValue fl toText _ k).1] at this
    exact this
  · intro m hm
    exact Animation.after_of_inactive fl toText _ _ m hm (Nat.find_spec hex)

/-- C3 at exact arithmetic, decimal numerals and target 150: the final text is `150+`. -/
theorem animateValue_reaches_target_witness :
    Rounding (fun x : ℚ => x) ∧ (0 : ℤ) ≤ 150 ∧
    ∃ n, 1 ≤ n ∧ n ≤ 63 ∧
      (∀ m, m < n → ((animateValue (fun x => x) "150" 0 150 1000).after
        (fun x => x) numberText m).active = true) ∧
      ((animateValue (fun x => x) "150" 0 150 1000).after (fun x => x) numberText n).active =
        false ∧
      ((animateValue (fun x => x) "150" 0 150 1000).after (fun x => x) numberText n).textContent =
        "150+" ∧
      ∀ m, n ≤ m → (animateValue (fun x => x) "150" 0 150 1000).after (fun x => x) numberText m =
        (animateValue (fun x => x) "150" 0 150 1000).after (fun x => x) numberText n :=
  ⟨Rounding.id_rounding, by norm_num,
    animateValue_reaches_target (fun x => x) numberText Rounding.id_rounding "150" 150
      (by norm_num)⟩

/-- C4: for a non-negative integer target, every tick of
`animateValue(element, 0, target, 1000)` that leaves the interval set (a tick before the final
one) renders the text of the integer `Math.floor(current)` followed by `+`; that integer is at
most the target, and it is at least the integer rendered by every earlier tick. -/
theorem animateValue_intermediate (fl : ℚ → ℚ) (toText : ℤ → String) (hfl : Rounding fl)
    (text : String)
    (target : ℤ) (h : 0 ≤ target) (m : ℕ) (hm : 1 ≤ m)
    (hact : ((animateValue fl text 0 target 1000).after fl toText m).active = true) :
    ((animateValue fl text 0 target 1000).after fl toText m).textContent =
      toText ⌊((animateValue fl text 0 target 1000).after fl toText m).current⌋ ++ "+" ∧
    ⌊((animateValue fl text 0 target 1000).after fl toText m).current⌋ ≤ target ∧
    ∀ k, 1 ≤ k → k ≤ m →
      ((animateValue fl text 0 target 1000).after fl toText k).textContent =
        toText ⌊((animateValue fl text 0 target 1000).after fl toText k).current⌋ ++ "+" ∧
      ⌊((animateValue fl text 0 target 1000).after fl toText k).current⌋ ≤
        ⌊((animateValue fl text 0 target 1000).after fl toText m).current⌋ := by
  have hinc0 := (animateValue_increment_lower fl hfl text target h).1
  have hfix : fl (animateValue fl text 0 target 1000).current =
      (animateValue fl text 0 target 1000).current := by
    show fl ((0 : ℤ) : ℚ) = ((0 : ℤ) : ℚ)
    simpa using hfl.zero
  have hrender : ∀ k, 1 ≤ k →
      ((animateValue fl text 0 target 1000).after fl toText k).active = true →
      ((animateValue fl text 0 target 1000).after fl toText k).current < (target : ℚ) ∧
      ((animateValue fl text 0 target 1000).after fl toText k).textContent =
        toText ⌊((animateValue fl text 0 target 1000).after fl toText k).current⌋ ++ "+" := by
    intro k hk hka
    obtain ⟨j, rfl⟩ : ∃ j, k = j + 1 := ⟨k - 1, by omega⟩
    have := Animation.tick_active fl toText ((animateValue fl text 0 target 1000).after fl toText j) hka
    rw [(Animation.after_endValue fl toText _ j).1] at this
    exact ⟨this.2.1, this.2.2⟩
  refine ⟨(hrender m hm hact).2, ?_, ?_⟩
  · have hlt := (hrender m hm hact).1
    exact le_of_lt (Int.floor_lt.mpr hlt)
  · intro k hk hkm
    have hka := Animation.after_active_of_le fl toText _ k m hkm hact
    exact ⟨(hrender k hk hka).2,
      Int.floor_le_floor (Animation.after_mono fl toText hfl _ hfix hinc0 k m hkm)⟩

/-- C4 at exact arithmetic, decimal numerals, target 150 and the second tick. -/
theorem animateValue_intermediate_witness :
    ((animateValue (fun x => x) "150" 0 150 1000).after (fun x => x) numberText 2).textContent =
      numberText
        ⌊((animateValue (fun x => x) "150" 0 150 1000).after (fun x => x) numberText 2).current⌋
        ++ "+" ∧
    ⌊((animateValue (fun x => x) "150" 0 150 1000).after (fun x => x) numberText 2).current⌋ ≤
      150 ∧
    ∀ k, 1 ≤ k → k ≤ 2 →
      ((animateValue (fun x => x) "150" 0 150 1000).after (fun x => x) numberText k).textContent =
        numberText
          ⌊((animateValue (fun x => x) "150" 0 150 1000).after (fun x => x) numberText k).current⌋
          ++ "+" ∧
      ⌊((animateValue (fun x => x) "150" 0 150 1000).after (fun x => x) numberText k).current⌋ ≤
        ⌊((animateValue (fun x => x) "150" 0 150 1000).after (fun x => x) numberText 2).current⌋ :=
  animateValue_intermediate (fun x => x) numberText Rounding.id_rounding "150" 150
    (by norm_num) 2 (by norm_num) (by
      have h1 : ¬ ((0 : ℤ) : ℚ) + (((150 : ℤ) : ℚ) - ((0 : ℤ) : ℚ)) / (((1000 : ℤ) : ℚ) / 16) ≥
          ((150 : ℤ) : ℚ) := by norm_num
      have e1 := Animation.tick_lt (fun x => x) numberText
        (animateValue (fun x => x) "150" 0 150 1000) rfl h1
      have h2 : ¬ ((animateValue (fun x => x) "150" 0 150 1000).tick (fun x => x)
            numberText).current +
          ((animateValue (fun x => x) "150" 0 150 1000).tick (fun x => x) numberText).increment ≥
          ((((animateValue (fun x => x) "150" 0 150 1000).tick (fun x => x)
            numberText).endValue : ℤ) : ℚ) := by
        rw [e1]
        show ¬ ((0 : ℤ) : ℚ) + (((150 : ℤ) : ℚ) - ((0 : ℤ) : ℚ)) / (((1000 : ℤ) : ℚ) / 16) +
          (((150 : ℤ) : ℚ) - ((0 : ℤ) : ℚ)) / (((1000 : ℤ) : ℚ) / 16) ≥ ((150 : ℤ) : ℚ)
        norm_num
      have ha1 : ((animateValue (fun x => x) "150" 0 150 1000).tick (fun x => x)
          numberText).active = true := by rw [e1]; rfl
      show (((animateValue (fun x => x) "150" 0 150 1000).tick (fun x => x) numberText).tick
        (fun x => x) numberText).active = true
      rw [Animation.tick_lt (fun x => x) numberText _ ha1 h2]
      exact ha1)

/-! ## Reveal observers -/

theorem Observer.mem_unobserve (o : Observer) (t x : Nat) :
    x ∈ (o.unobserve t).observed ↔ x ∈ o.observed ∧ x ≠ t := by
  simp [Observer.unobserve, List.mem_filter]

theorem Observer.reveals_push (o : Observer) (e : Effect) (t el : Nat) :
    (({ o with effects := o.effects ++ [e] } : Observer).unobserve t).reveals el =
      o.reveals el + if e.revealed = some el then 1 else 0 := by
  simp only [Observer.reveals, Observer.unobserve, List.filter_append, List.length_append]
  by_cases h : e.revealed = some el
  · simp [List.filter, h]
  · have hb : (e.revealed == some el) = false := by simpa using h
    simp [List.filter, h, hb]

theorem Observer.mem_observe (o : Observer) (t x : Nat) :
    x ∈ (o.observe t).observed ↔ x ∈ o.observed ∨ x = t := by
  unfold Observer.observe
  split
  · constructor
    · exact Or.inl
    · rintro (h | rfl)
      · exact h
      · assumption
  · simp

theorem Observer.nodup_observe (o : Observer) (t : Nat) (h : o.observed.Nodup) :
    (o.observe t).observed.Nodup := by
  unfold Observer.observe
  split
  · exact h
  · rename_i hnot
    exact List.Nodup.append h (List.nodup_singleton t) (by
      intro x hx hx2
      rw [List.mem_singleton] at hx2
      exact hnot (hx2 ▸ hx))

theorem fadeCallback_observed (o : Observer) (entries : List Entry) (x : Nat) :
    x ∈ (fadeCallback o entries).observed ↔
      x ∈ o.observed ∧ ∀ e ∈ entries, e.isIntersecting = true → e.target ≠ x := by
  unfold fadeCallback
  induction entries generalizing o with
  | nil => simp
  | cons e rest ih =>
    rw [List.foldl_cons, ih]
    cases he : e.isIntersecting
    · simp [he]
    · simp only [he, if_true, Observer.mem_unobserve, List.mem_cons, forall_eq_or_imp,
        forall_true_left]
      constructor
      · rintro ⟨⟨h1, h2⟩, h3⟩
        exact ⟨h1, fun h => h2 h.symm, h3⟩
      · rintro ⟨h1, h2, h3⟩
        exact ⟨⟨h1, fun h => h2 h.symm⟩, h3⟩

theorem fadeCallback_reveals (o : Observer) (entries : List Entry) (el : Nat) :
    (fadeCallback o entries).reveals el =
      o.reveals el + entries.countP (fun e => e.isIntersecting && e.target == el) := by
  unfold fadeCallback
  induction entries generalizing o with
  | nil => simp
  | cons e rest ih =>
    rw [List.foldl_cons, ih, List.countP_cons]
    cases he : e.isIntersecting
    · simp [he]
    · simp only [he, if_true, Observer.reveals_push, Effect.revealed, Option.some.injEq,
        Bool.true_and, beq_iff_eq]
      omega

theorem slideLoop_observed (o : Observer) (entries : List Entry) (index x : Nat) :
    x ∈ (slideLoop o entries index).observed ↔
      x ∈ o.observed ∧ ∀ e ∈ entries, e.isIntersecting = true → e.target ≠ x := by
  induction entries generalizing o index with
  | nil => simp [slideLoop]
  | cons e rest ih =>
    unfold slideLoop
    cases he : e.isIntersecting
    · simp [he, ih]
    · simp only [if_true, ih, Observer.mem_unobserve, List.mem_cons, forall_eq_or_imp,
        he, forall_true_left]
      constructor
      · rintro ⟨⟨h1, h2⟩, h3⟩
        exact ⟨h1, fun h => h2 h.symm, h3⟩
      · rintro ⟨h1, h2, h3⟩
        exact ⟨⟨h1, fun h => h2 h.symm⟩, h3⟩

theorem slideLoop_reveals (o : Observer) (entries : List Entry) (index el : Nat) :
    (slideLoop o entries index).reveals el =
      o.reveals el + entries.countP (fun e => e.isIntersecting && e.target == el) := by
  induction entries generalizing o index with
  | nil => simp [slideLoop]
  | cons e rest ih =>
    unfold slideLoop
    rw [List.countP_cons]
    cases he : e.isIntersecting
    · simp [he, ih]
    · simp only [if_true, ih, Observer.reveals_push, Effect.revealed, Option.some.injEq,
        Bool.true_and, beq_iff_eq]
      omega

theorem countP_target_le_one (entries : List Entry) (el : Nat)
    (h : (entries.map Entry.target).Nodup) :
    entries.countP (fun e => e.isIntersecting && e.target == el) ≤ 1 := by
  induction entries with
  | nil => simp
  | cons e rest ih =>
    rw [List.map_cons, List.nodup_cons] at h
    rw [List.countP_cons]
    by_cases hc : (e.isIntersecting && e.target == el) = true
    · have hzero : rest.countP (fun e => e.isIntersecting && e.target == el) = 0 := by
        rw [List.countP_eq_zero]
        intro e2 he2 hp
        simp only [Bool.and_eq_true, beq_iff_eq] at hc hp
        apply h.1
        rw [hc.2, ← hp.2]
        exact List.mem_map_of_mem _ he2
      simp [hc, hzero]
    · have := ih h.2
      simp only [hc]
      simpa using this

theorem countP_pos_mem (entries : List Entry) (el : Nat)
    (h : 0 < entries.countP (fun e => e.isIntersecting && e.target == el)) :
    ∃ e ∈ entries, e.isIntersecting = true ∧ e.target = el := by
  rw [List.countP_pos_iff] at h
  obtain ⟨e, he, hp⟩ := h
  simp only [Bool.and_eq_true, beq_iff_eq] at hp
  exact ⟨e, he, hp⟩

/-- One-shot invariant of an observer whose callback removes exactly the targets reported
intersecting and reveals each of them once: an observed element has not been revealed, and
no element has been revealed twice. -/
theorem reachable_one_shot (callback : Observer → List Entry → Observer) (init : Observer)
    (hobs : ∀ o entries x, x ∈ (callback o entries).observed ↔
      x ∈ o.observed ∧ ∀ e ∈ entries, e.isIntersecting = true → e.target ≠ x)
    (hrev : ∀ o entries el, (callback o entries).reveals el =
      o.reveals el + entries.countP (fun e => e.isIntersecting && e.target == el))
    (hinit : ∀ el, init.reveals el = 0) (o : Observer) (hr : Reachable callback init o)
    (el : Nat) :
    o.reveals el ≤ 1 ∧ (el ∈ o.observed → o.reveals el = 0 ∧ el ∈ init.observed) := by
  induction hr with
  | start => exact ⟨by rw [hinit]; omega, fun h => ⟨hinit el, h⟩⟩
  | notify o entries _ hd ih =>
    rw [hrev, hobs]
    have hle := countP_target_le_one entries el hd.1
    constructor
    · rcases Nat.eq_zero_or_pos
        (entries.countP (fun e => e.isIntersecting && e.target == el)) with h0 | hpos
      · rw [h0]; exact ih.1
      · obtain ⟨e, he, _, ht⟩ := countP_pos_mem entries el hpos
        have hmem := hd.2 e he
        rw [ht] at hmem
        have := (ih.2 hmem).1
        omega
    · rintro ⟨hmem, hno⟩
      have h0 : entries.countP (fun e => e.isIntersecting && e.target == el) = 0 := by
        rw [List.countP_eq_zero]
        intro e he hp
        simp only [Bool.and_eq_true, beq_iff_eq] at hp
        exact hno e he hp.1 hp.2
      rw [h0]
      exact ⟨(ih.2 hmem).1, (ih.2 hmem).2⟩

theorem foldl_observe (els : List Nat) (o : Observer) :
    ((els.foldl (fun o el => o.observe el) o).observed.Nodup ↔ o.observed.Nodup) ∧
    (∀ x, x ∈ (els.foldl (fun o el => o.observe el) o).observed ↔ x ∈ o.observed ∨ x ∈ els) ∧
    (els.foldl (fun o el => o.observe el) o).effects = o.effects := by
  induction els generalizing o with
  | nil => simp
  | cons el rest ih =>
    rw [List.foldl_cons]
    obtain ⟨h1, h2, h3⟩ := ih (o.observe el)
    refine ⟨h1.trans ?_, ?_, ?_⟩
    · constructor
      · intro h
        unfold Observer.observe at h
        split at h
        · exact h
        · exact (List.nodup_append.mp h).1
      · exact Observer.nodup_observe o el
    · intro x
      rw [h2, Observer.mem_observe, List.mem_cons]
      tauto
    · rw [h3]
      unfold Observer.observe
      split <;> rfl

theorem foldl_hide_observe (els : List Nat) (o : Observer) :
    ((els.foldl (fun o el =>
        ({ o with effects := o.effects ++ [Effect.hide el] } : Observer).observe el)
        o).observed.Nodup ↔ o.observed.Nodup) ∧
    (∀ x, x ∈ (els.foldl (fun o el =>
        ({ o with effects := o.effects ++ [Effect.hide el] } : Observer).observe el)
        o).observed ↔ x ∈ o.observed ∨ x ∈ els) ∧
    (∀ x, (els.foldl (fun o el =>
        ({ o with effects := o.effects ++ [Effect.hide el] } : Observer).observe el)
        o).reveals x = o.reveals x) := by
  induction els generalizing o with
  | nil => simp
  | cons el rest ih =>
    rw [List.foldl_cons]
    obtain ⟨h1, h2, h3⟩ :=
      ih (({ o with effects := o.effects ++ [Effect.hide el] } : Observer).observe el)
    refine ⟨h1.trans ?_, ?_, ?_⟩
    · constructor
      · intro h
        unfold Observer.observe at h
        split at h
        · exact h
        · exact (List.nodup_append.mp h).1
      · intro h
        exact Observer.nodup_observe
          ({ o with effects := o.effects ++ [Effect.hide el] } : Observer) el h
    · intro x
      rw [h2, Observer.mem_observe, List.mem_cons]
      tauto
    · intro x
      rw [h3]
      unfold Observer.observe
      split <;> simp [Observer.reveals, List.filter_append, List.filter, Effect.revealed]

theorem oneShot_of_callback (callback : Observer → List Entry → Observer) (init : Observer)
    (els : List Nat)
    (hobs : ∀ o entries x, x ∈ (callback o entries).observed ↔
      x ∈ o.observed ∧ ∀ e ∈ entries, e.isIntersecting = true → e.target ≠ x)
    (hrev : ∀ o entries el, (callback o entries).reveals el =
      o.reveals el + entries.countP (fun e => e.isIntersecting && e.target == el))
    (hinit : ∀ el, init.reveals el = 0) (hnodup : init.observed.Nodup)
    (hmem : ∀ el, el ∈ init.observed ↔ el ∈ els) :
    OneShot callback init els := by
  refine ⟨⟨hnodup, hmem⟩, ?_⟩
  intro o hr
  have hinv := reachable_one_shot callback init hobs hrev hinit o hr
  refine ⟨?_, ?_⟩
  · intro el
    refine ⟨(hinv el).1, ?_, fun h => (hmem el).mp ((hinv el).2 h).2⟩
    intro hpos hin
    have := ((hinv el).2 hin).1
    omega
  · intro entries hd
    refine ⟨?_, fun el h => ((hobs o entries el).mp h).1⟩
    intro entry he hi
    refine ⟨fun h => ((hobs o entries _).mp h).2 entry he hi rfl, ?_⟩
    have hle := (reachable_one_shot callback init hobs hrev hinit _
      (Reachable.notify o entries hr hd) entry.target).1
    have h0 := ((hinv entry.target).2 (hd.2 entry he)).1
    have hpos : 0 < entries.countP (fun e => e.isIntersecting && e.target == entry.target) := by
      rw [List.countP_pos_iff]
      exact ⟨entry, he, by simp [hi]⟩
    rw [hrev] at hle ⊢
    omega

/-- C10: in each reveal pass every matching element is registered exactly once at setup; in
every state the observer reaches, no element has been revealed more than once, a revealed
element is no longer observed, and only matching elements are observed; and each notification
unobserves every target it reports intersecting, reveals it once, and registers nothing. -/
theorem reveal_one_shot (elsA elsB : List Nat) :
    OneShot fadeCallback (initializeAnimations elsA) elsA ∧
    OneShot slideCallback (initializeIntersectionObserver elsB) elsB := by
  constructor
  · obtain ⟨h1, h2, h3⟩ := foldl_observe elsA { observed := [], effects := [] }
    apply oneShot_of_callback fadeCallback _ elsA fadeCallback_observed fadeCallback_reveals
    · intro el
      simp [initializeAnimations, Observer.reveals, h3]
    · exact h1.mpr List.nodup_nil
    · intro el
      have := h2 el
      simpa [initializeAnimations] using this
  · obtain ⟨h1, h2, h3⟩ := foldl_hide_observe elsB { observed := [], effects := [] }
    apply oneShot_of_callback slideCallback _ elsB
      (fun o entries x => slideLoop_observed o entries 0 x)
      (fun o entries el => slideLoop_reveals o entries 0 el)
    · intro el
      have := h3 el
      simpa [initializeIntersectionObserver, Observer.reveals] using this
    · exact h1.mpr List.nodup_nil
    · intro el
      have := h2 el
      simpa [initializeIntersectionObserver] using this

/-- A run of the fade-in pass over three elements: the first notification reports element 1
intersecting and element 2 not, the second reports element 2 intersecting. -/
theorem reveal_one_shot_run :
    Reachable fadeCallback (initializeAnimations [1, 2, 3])
      (fadeCallback (fadeCallback (initializeAnimations [1, 2, 3]) [⟨1, true⟩, ⟨2, false⟩])
        [⟨2, true⟩]) ∧
    (fadeCallback (fadeCallback (initializeAnimations [1, 2, 3]) [⟨1, true⟩, ⟨2, false⟩])
        [⟨2, true⟩]).observed = [3] ∧
    ∀ el, (fadeCallback (fadeCallback (initializeAnimations [1, 2, 3])
        [⟨1, true⟩, ⟨2, false⟩]) [⟨2, true⟩]).reveals el ≤ 1 := by
  have hr : Reachable fadeCallback (initializeAnimations [1, 2, 3])
      (fadeCallback (fadeCallback (initializeAnimations [1, 2, 3]) [⟨1, true⟩, ⟨2, false⟩])
        [⟨2, true⟩]) :=
    Reachable.notify _ _ (Reachable.notify _ _ Reachable.start (by decide)) (by decide)
  exact ⟨hr, by decide, fun el => (((reveal_one_shot [1, 2, 3] []).1.2 _ hr).1 el).1⟩

end Portfolio
